import Mathlib

/-!
# trikControl: CameraLineDetectorSensorWorker

A shallow embedding of `src/trikControl/src/cameraLineDetectorSensorWorker.cpp`.

The worker supervises the external `rover-cv` process through two FIFOs.
Beware of the naming of the source: `mInputFile` is the *input of rover-cv*,
that is the pipe the worker writes commands to (the outbound pipe), and
`mOutputFile` / `mOutputFileDescriptor` is the *output of rover-cv*, the pipe
the worker reads from (the inbound pipe).

Member variables become fields of `Worker`.  Everything the operating system
or Qt decides (does a path exist, is the process running, does the launch
succeed, what does `open` return, what does `read` deliver) is an explicit
argument of the operation.
Observable actions on the outside world (process launches, descriptor opens
and closes, writes to the outbound stream) are appended to `Worker.effects`.
-/

namespace CameraLineDetectorSensorWorker

/-! ## Data model -/

/-- The `QSocketNotifier` owned by `mSocketNotifier`: the descriptor it watches,
whether it is enabled, and whether `activated(int)` is connected to `readFile`. -/
structure SocketNotifier where
  fd : Int
  enabled : Bool
  connected : Bool
  deriving DecidableEq, Repr

/-- Actions on the outside world, in the order the code performs them. -/
inductive Effect where
  /-- `mRoverCvProcess.close()` -/
  | processClose
  /-- `mRoverCvProcess.start(...)` -/
  | processStart
  /-- the fixed `wait.wait(&mutex, 1000)` after a successful launch -/
  | settle
  /-- `::open(mOutputFile...)` together with the value it returned -/
  | osOpen (result : Int)
  /-- `::close(fd)` -/
  | osClose (fd : Int)
  /-- `::read(fd, data, 4000)` -/
  | osRead (fd : Int)
  /-- `mInputFile.open(WriteOnly | Text)` together with its result -/
  | fileOpen (ok : Bool)
  /-- `mInputFile.close()` on an open file -/
  | fileClose
  /-- text pushed through `mInputStream` and flushed; `deviceOpen` records whether
  the stream had `mInputFile` as device and that file was open at that moment -/
  | streamWrite (text : String) (deviceOpen : Bool)
  deriving DecidableEq, Repr

/-- Member variables of `CameraLineDetectorSensorWorker` plus the effect log.
`mToleranceFactor` is a `double` in the source; the embedding covers the
integer-valued factors only. -/
structure Worker where
  mReading : Int
  mOutputFileDescriptor : Int
  mSocketNotifier : Option SocketNotifier
  /-- `mInputFile.isOpen()` -/
  mInputFileOpen : Bool
  /-- `mInputStream.setDevice(&mInputFile)` has been executed -/
  mInputStreamDevice : Bool
  mReady : Bool
  mToleranceFactor : Int
  mCommandQueue : List String
  effects : List Effect
  deriving DecidableEq, Repr

/-- What the environment answers during one call. -/
structure Env where
  /-- `mInputFile.exists()` -/
  inputExists : Bool
  /-- `mOutputFile.exists()` -/
  outputExists : Bool
  /-- `mRoverCvProcess.state() == QProcess::Running` when `startRoverCv` is entered -/
  wasRunning : Bool
  /-- the process is `Running` after `start` and `waitForStarted` -/
  launchOk : Bool
  /-- return value of `::open` on the inbound pipe (`-1` on failure) -/
  openResult : Int
  /-- result of `mInputFile.open(WriteOnly | Text)` -/
  inputOpenOk : Bool
  deriving DecidableEq, Repr

/-- Ways in which `readFile` can leave defined behaviour. -/
inductive Fault where
  /-- `mSocketNotifier->...` on an empty scoped pointer -/
  | nullNotifier
  /-- `parsedLine[i]` with `i` outside the list -/
  | indexOutOfRange
  /-- `QString(data)` on a buffer without terminating NUL -/
  | bufferOverread
  deriving DecidableEq, Repr

/-- The constructor: `mReading(0)`, `mOutputFileDescriptor(-1)`, `mReady(false)`. -/
def construct (toleranceFactor : Int) : Worker where
  mReading := 0
  mOutputFileDescriptor := -1
  mSocketNotifier := none
  mInputFileOpen := false
  mInputStreamDevice := false
  mReady := false
  mToleranceFactor := toleranceFactor
  mCommandQueue := []
  effects := []

/-! ## The outbound text stream -/

/-- The statements `mInputStream << text; mInputStream.flush()`: the text is
pushed to the device of the stream. Every `<<` of the source is followed by a
`flush()` before anything else happens, so the two are one step here. -/
def streamWrite (text : String) (s : Worker) : Worker :=
  { s with
    effects := s.effects ++
      [Effect.streamWrite text (s.mInputStreamDevice && s.mInputFileOpen)] }

/-! ## Lifecycle operations -/

/-- The method `tryToExecute`. -/
def tryToExecute (s : Worker) : Worker :=
  if s.mReady then
    { (s.mCommandQueue.foldl (fun w command => streamWrite (command ++ "\n") w) s) with
      mCommandQueue := [] }
  else s

/-- The method `openFifos`. -/
def openFifos (env : Env) (s : Worker) : Worker :=
  let s1 : Worker :=
    if s.mInputFileOpen then
      { s with mInputFileOpen := false, effects := s.effects ++ [Effect.fileClose] }
    else s
  let s2 : Worker :=
    { s1 with
      mOutputFileDescriptor := env.openResult
      effects := s1.effects ++ [Effect.osOpen env.openResult] }
  if s2.mOutputFileDescriptor = -1 then s2
  else
    let s3 : Worker :=
      { s2 with
        mSocketNotifier := some ⟨s2.mOutputFileDescriptor, true, true⟩
        mInputFileOpen := env.inputOpenOk
        effects := s2.effects ++ [Effect.fileOpen env.inputOpenOk] }
    if !env.inputOpenOk then s3
    else tryToExecute { s3 with mInputStreamDevice := true, mReady := true }

/-- The method `startRoverCv`. -/
def startRoverCv (env : Env) (s : Worker) : Worker :=
  let s1 : Worker :=
    if env.wasRunning then { s with effects := s.effects ++ [Effect.processClose] } else s
  let s2 : Worker := { s1 with effects := s1.effects ++ [Effect.processStart] }
  if !env.launchOk then s2
  else openFifos env { s2 with effects := s2.effects ++ [Effect.settle] }

/-- The method `initDetector`. -/
def initDetector (env : Env) (s : Worker) : Worker :=
  if !env.inputExists || !env.outputExists then startRoverCv env s
  else openFifos env s

/-- The method `init`. -/
def init (env : Env) (s : Worker) : Worker :=
  if !s.mReady || !env.inputExists || !env.outputExists then initDetector env s
  else s

/-- The method `detect`. -/
def detect (env : Env) (s : Worker) : Worker :=
  let s1 : Worker :=
    if !s.mReady || !env.inputExists || !env.outputExists then init env s else s
  tryToExecute { s1 with mCommandQueue := s1.mCommandQueue ++ ["detect"] }

/-- The method `read`. -/
def read (s : Worker) : Int := s.mReading

/-- The method `deinitialize`. -/
def deinitialize (s : Worker) : Worker :=
  let s1 : Worker :=
    match s.mSocketNotifier with
    | some n => { s with mSocketNotifier := some { n with enabled := false, connected := false } }
    | none => s
  { s1 with
    mOutputFileDescriptor := -1
    mInputFileOpen := false
    effects := s1.effects ++ [Effect.osClose s1.mOutputFileDescriptor] ++
      (if s1.mInputFileOpen then [Effect.fileClose] else []) }

/-- The slot `onRoverCvError`. -/
def onRoverCvError (s : Worker) : Worker :=
  deinitialize { s with mReady := false }

/-! ## Console output of rover-cv -/

/-- The call `QString::split(sep)` with the default `KeepEmptyParts`. -/
def splitKeep (sep : Char) : List Char → List (List Char)
  | [] => [[]]
  | c :: cs =>
    if c = sep then [] :: splitKeep sep cs
    else
      match splitKeep sep cs with
      | [] => [[c]]
      | part :: parts => (c :: part) :: parts

/-- The call `QString::split(sep, QString::SkipEmptyParts)`. -/
def splitSkipEmpty (sep : Char) (text : List Char) : List (List Char) :=
  (splitKeep sep text).filter (fun part => !part.isEmpty)

/-- The body of the `foreach` loop of `onRoverCvReadyReadStandardOutput`. -/
def onConsoleLine (env : Env) (line : String) (s : Worker) : Worker :=
  let s1 : Worker := if line = "Entering video thread loop" then openFifos env s else s
  if line = "Terminating" then deinitialize { s1 with mReady := false } else s1

/-- The slot `onRoverCvReadyReadStandardOutput` on the text `data` read from the
process; `envs i` is what the environment answers while line `i` is handled. -/
def onRoverCvReadyReadStandardOutput (envs : Nat → Env) (data : String) (s : Worker) : Worker :=
  ((splitKeep '\n' data.data).enum.foldl
    (fun w il => onConsoleLine (envs il.1) (String.mk il.2) w) s)

/-- The slot `onRoverCvReadyReadStandardError`: it only prints. -/
def onRoverCvReadyReadStandardError (_data : String) (s : Worker) : Worker := s

/-! ## Qt text helpers used by `readFile` -/

/-- Value of a decimal digit, as `QChar::digitValue` gives it for ASCII. -/
def digitValue (c : Char) : Option Nat :=
  if 48 ≤ c.toNat ∧ c.toNat ≤ 57 then some (c.toNat - 48) else none

/-- Reads an unsigned decimal numeral; `none` if the text is empty or has a
character that is no digit. -/
def parseDigits : Option Nat → List Char → Option Nat
  | acc, [] => acc
  | acc, c :: cs =>
    match digitValue c with
    | none => none
    | some d => parseDigits (some (10 * acc.getD 0 + d)) cs

/-- Drops the white space around a numeral, as the number parser of Qt does. -/
def trimSpace (text : List Char) : List Char :=
  ((text.dropWhile Char.isWhitespace).reverse.dropWhile Char.isWhitespace).reverse

/-- The call `QString::toInt()` in base 10: an optional sign and decimal digits
inside the range of a 32-bit `int`; `0` when the conversion fails. -/
def toInt (field : List Char) : Int :=
  let text := trimSpace field
  let negative : Bool := text.head? == some '-'
  let digits : List Char :=
    if text.head? = some '-' ∨ text.head? = some '+' then text.tail else text
  match parseDigits none digits with
  | none => 0
  | some n =>
    let v : Int := if negative then -(n : Int) else (n : Int)
    if -2147483648 ≤ v ∧ v ≤ 2147483647 then v else 0

/-- Decimal digits of a natural number, most significant first, with `fuel`
bounding the number of digits. -/
def decimalAux : Nat → Nat → List Char → List Char
  | 0, _, acc => acc
  | fuel + 1, n, acc =>
    let acc1 := Char.ofNat (48 + n % 10) :: acc
    if n / 10 = 0 then acc1 else decimalAux fuel (n / 10) acc1

/-- Decimal numeral of a natural number. -/
def decimal (n : Nat) : List Char := decimalAux (n + 1) n []

/-- The text `QString::arg(int)` inserts: the decimal numeral with a minus sign
for negative values. -/
def formatInt (v : Int) : List Char :=
  if v < 0 then '-' :: decimal v.natAbs else decimal v.natAbs

/-- Removes the zeros at the end of a digit string. -/
def stripTrailingZeros (digits : List Char) : List Char :=
  (digits.reverse.dropWhile (fun c => c = '0')).reverse

/-- The mantissa of the exponent form: the digits of `m` without the zeros at
the end, with a point after the first digit when more digits follow. -/
def mantissaText (m : Nat) : List Char :=
  match stripTrailingZeros (decimal m) with
  | [] => ['0']
  | [d] => [d]
  | d :: ds => d :: '.' :: ds

/-- The exponent of the exponent form: `e+` and at least two digits. -/
def exponentText (e : Nat) : List Char :=
  ['e', '+'] ++ (if e < 10 then '0' :: decimal e else decimal e)

/-- The text `QString::arg(double)` inserts (format `'g'`, default precision, so
six significant digits) for a `double` whose value is the integer `v`: plain
digits below `10^6`, otherwise the exponent form with the mantissa rounded to
six digits (ties to even). -/
def formatG (v : Int) : List Char :=
  let a := v.natAbs
  let sign : List Char := if v < 0 then ['-'] else []
  if a < 1000000 then sign ++ decimal a
  else
    let e := (decimal a).length - 1
    let scale := 10 ^ (e - 5)
    let q := a / scale
    let r := a % scale
    let up : Bool := decide (scale < 2 * r) || (decide (2 * r = scale) && decide (q % 2 = 1))
    let m := if up then q + 1 else q
    let m1 := if m = 1000000 then 100000 else m
    let e1 := if m = 1000000 then e + 1 else e
    sign ++ mantissaText m1 ++ exponentText e1

/-- The number of a place marker (`%1`, `%12`) whose digits start the text, and
how many characters the digits take. -/
def escapeDigits : List Char → Option (Nat × Nat)
  | [] => none
  | [d1] => (digitValue d1).map (fun v => (v, 1))
  | d1 :: d2 :: _ =>
    match digitValue d1, digitValue d2 with
    | none, _ => none
    | some v1, none => some (v1, 1)
    | some v1, some v2 => some (10 * v1 + v2, 2)

/-- The place marker that follows a `%`: its number and its length after the
percent sign. The letter `L` may stand before the digits. -/
def markerAfterPercent : List Char → Option (Nat × Nat)
  | 'L' :: rest => (escapeDigits rest).map (fun nl => (nl.1, nl.2 + 1))
  | rest => escapeDigits rest

/-- The lowest place-marker number in a format string (`findArgEscapes`). -/
def minEscape : List Char → Option Nat
  | [] => none
  | c :: cs =>
    if c = '%' then
      match markerAfterPercent cs, minEscape cs with
      | some (n, _), some m => some (min n m)
      | some (n, _), none => some n
      | none, later => later
    else minEscape cs

/-- Replaces every place marker numbered `target` by `a`; `skip` counts the
characters of a replaced marker that are still to be dropped. -/
def replaceEscapes (target : Nat) (a : List Char) : Nat → List Char → List Char
  | _, [] => []
  | skip + 1, _ :: cs => replaceEscapes target a skip cs
  | 0, c :: cs =>
    if c = '%' then
      match markerAfterPercent cs with
      | some (n, len) =>
        if n = target then a ++ replaceEscapes target a len cs
        else c :: replaceEscapes target a 0 cs
      | none => c :: replaceEscapes target a 0 cs
    else c :: replaceEscapes target a 0 cs

/-- The call `QString::arg(a)`: the lowest numbered place marker is replaced by
`a`; a string without place marker is returned as it is. -/
def arg (format a : List Char) : List Char :=
  match minEscape format with
  | none => format
  | some n => replaceEscapes n a 0 format

/-- The conversion `QString(const char *)`: the text up to the first NUL. -/
def cString (data : List Char) : List Char :=
  data.takeWhile (fun c => c != Char.ofNat 0)

/-- The access `parsedLine[i]` of a `QStringList`. -/
def fieldAt (parsedLine : List (List Char)) (i : Nat) : Except Fault (List Char) :=
  match parsedLine.get? i with
  | some field => Except.ok field
  | none => Except.error Fault.indexOutOfRange


/-! ## Reading the inbound pipe -/

/-- The size of the buffer `char data[4000]` of `readFile`, which is also the
byte count passed to `::read`. -/
def bufferSize : Nat := 4000

/-- What `::read(fd, data, 4000)` puts into the buffer: `none` stands for a
negative return value, a read on a negative descriptor always fails, and of
the bytes `pipe` holds at most `bufferSize` are taken. Each character of the
payload stands for one byte. -/
def osRead (fd : Int) (pipe : Option String) : Option (List Char) :=
  if fd < 0 then none else pipe.map (fun text => text.data.take bufferSize)

/-- The declaration `QString const linesRead(data)` on the buffer after the
read. The buffer is zero-initialised, so the bytes read are followed by a NUL
unless they fill all of its places; the conversion stops at the first NUL, and
on a full buffer that holds none it reads past the end of the array. -/
def linesRead (bytes : List Char) : Except Fault (List Char) :=
  if bufferSize ≤ bytes.length ∧ bytes.all (fun c => c != Char.ofNat 0) then
    Except.error Fault.bufferOverread
  else Except.ok (cString bytes)

/-- The text written back for an `hsv:` record: the format string of the source
with its six `arg` calls. -/
def hsvText (k hue hueTolerance saturation saturationTolerance value valueTolerance : Int) :
    List Char :=
  arg (arg (arg (arg (arg (arg "hsv %0 %1 %2 %3 %4 %5 %6".data
    (formatInt hue))
    (formatG (hueTolerance * k)))
    (formatInt saturation))
    (formatG (saturationTolerance * k)))
    (formatInt value))
    (formatG (valueTolerance * k))

/-- The body of the `foreach` loop of `readFile`, on one line of the payload. -/
def parseRecord (line : List Char) (s : Worker) : Except Fault Worker :=
  let parsedLine := splitSkipEmpty ' ' line
  match fieldAt parsedLine 0 with
  | Except.error f => Except.error f
  | Except.ok tag =>
    let afterLoc : Except Fault Worker :=
      if tag = "loc:".data then
        match fieldAt parsedLine 1, fieldAt parsedLine 2, fieldAt parsedLine 3 with
        | Except.ok x, Except.ok _, Except.ok _ => Except.ok { s with mReading := toInt x }
        | _, _, _ => Except.error Fault.indexOutOfRange
      else Except.ok s
    match afterLoc with
    | Except.error f => Except.error f
    | Except.ok s1 =>
      if tag = "hsv:".data then
        match fieldAt parsedLine 1, fieldAt parsedLine 2, fieldAt parsedLine 3,
          fieldAt parsedLine 4, fieldAt parsedLine 5, fieldAt parsedLine 6 with
        | Except.ok hue, Except.ok hueTolerance, Except.ok saturation,
          Except.ok saturationTolerance, Except.ok value, Except.ok valueTolerance =>
          Except.ok (streamWrite
            (String.mk (hsvText s1.mToleranceFactor (toInt hue) (toInt hueTolerance)
              (toInt saturation) (toInt saturationTolerance) (toInt value)
              (toInt valueTolerance)) ++ "\n") s1)
        | _, _, _, _, _, _ => Except.error Fault.indexOutOfRange
      else Except.ok s1

/-- The `foreach` loop of `readFile` over the lines of the payload. -/
def parseRecords : List (List Char) → Worker → Except Fault Worker
  | [], s => Except.ok s
  | line :: lines, s =>
    match parseRecord line s with
    | Except.error f => Except.error f
    | Except.ok s1 => parseRecords lines s1

/-- The call `mSocketNotifier->setEnabled(flag)`. -/
def setEnabled (flag : Bool) (s : Worker) : Except Fault Worker :=
  match s.mSocketNotifier with
  | none => Except.error Fault.nullNotifier
  | some n => Except.ok { s with mSocketNotifier := some { n with enabled := flag } }

/-- The slot `readFile`. `pipe` is what the inbound pipe holds when the bounded
read is made (`none` when the read fails). -/
def readFile (pipe : Option String) (s : Worker) : Except Fault Worker :=
  match setEnabled false s with
  | Except.error f => Except.error f
  | Except.ok s1 =>
    let s2 : Worker := { s1 with effects := s1.effects ++ [Effect.osRead s1.mOutputFileDescriptor] }
    match osRead s2.mOutputFileDescriptor pipe with
    | none => Except.ok s2
    | some data =>
      match linesRead data with
      | Except.error f => Except.error f
      | Except.ok text =>
        match parseRecords (splitSkipEmpty '\n' text) s2 with
        | Except.error f => Except.error f
        | Except.ok s3 => setEnabled true s3

/-! ## Events -/

/-- Public calls and callbacks the worker can receive. -/
inductive Event where
  | init (env : Env)
  | detect (env : Env)
  /-- signal `error(QProcess::ProcessError)` of the process -/
  | processError
  /-- one line of standard output of the process -/
  | consoleLine (env : Env) (line : String)
  /-- the inbound descriptor became readable -/
  | readable (pipe : Option String)
  deriving DecidableEq, Repr

/-- Whether `activated(int)` reaches `readFile`: the notifier exists, is enabled
and is connected. -/
def notifierActive (s : Worker) : Bool :=
  match s.mSocketNotifier with
  | some n => n.enabled && n.connected
  | none => false

/-- One event handled by the worker. A readable descriptor is only noticed
through an active notifier. -/
def step (e : Event) (s : Worker) : Except Fault Worker :=
  match e with
  | Event.init env => Except.ok (init env s)
  | Event.detect env => Except.ok (detect env s)
  | Event.processError => Except.ok (onRoverCvError s)
  | Event.consoleLine env line => Except.ok (onConsoleLine env line s)
  | Event.readable pipe => if notifierActive s then readFile pipe s else Except.ok s

/-- A sequence of events handled one after the other. -/
def run : List Event → Worker → Except Fault Worker
  | [], s => Except.ok s
  | e :: es, s =>
    match step e s with
    | Except.error f => Except.error f
    | Except.ok s1 => run es s1

/-- The writes to the outbound stream recorded in an effect log, oldest first,
each with the flag telling whether the outbound pipe was open. -/
def writes : List Effect → List (String × Bool)
  | [] => []
  | Effect.streamWrite text deviceOpen :: rest => (text, deviceOpen) :: writes rest
  | _ :: rest => writes rest

/-- The number of process launches in an effect log. -/
def launches (effects : List Effect) : Nat :=
  effects.count Effect.processStart


/-- Whether an event is a readable notification. -/
def isReadable : Event → Bool
  | Event.readable _ => true
  | _ => false

/-- The channel stays not Ready along a sequence of calls and fault events: no
event is a readable notification, every event is handled, and after each of
them `mReady` is false. -/
def staysNotReady : List Event → Worker → Bool
  | [], _ => true
  | e :: es, s =>
    !isReadable e &&
      match step e s with
      | Except.ok s1 => !s1.mReady && staysNotReady es s1
      | Except.error _ => false

/-- The commands submitted by the `detect` calls of a sequence, in order. -/
def submitted : List Event → List String
  | [] => []
  | Event.detect _ :: es => "detect" :: submitted es
  | _ :: es => submitted es

/-- Both pipe handles are closed and the worker is not Ready: the flag is off,
the inbound descriptor is the not-open marker, the outbound file is closed and
no notifier is enabled. -/
def tornDown (s : Worker) : Prop :=
  s.mReady = false ∧ s.mOutputFileDescriptor = -1 ∧ s.mInputFileOpen = false ∧
    notifierActive s = false ∧ ∀ n, s.mSocketNotifier = some n → n.enabled = false

/-! ## Records of a batch -/

/-- The records `readFile` iterates over: the non-empty lines of the text the
buffer holds after the bounded read. -/
def records (data : String) : List (List Char) :=
  splitSkipEmpty '\n' (cString (data.data.take bufferSize))

/-- The tag of a record: its first field, if it has one. -/
def tagOf (line : List Char) : Option (List Char) :=
  (splitSkipEmpty ' ' line).head?

/-- A record with enough fields for its tag: some tag, and after `loc:` at
least three and after `hsv:` at least six value fields. -/
def wellFormed (line : List Char) : Bool :=
  match splitSkipEmpty ' ' line with
  | [] => false
  | tag :: values =>
    if tag = "loc:".data then decide (3 ≤ values.length)
    else if tag = "hsv:".data then decide (6 ≤ values.length)
    else true

/-- The x field of a `loc:` record as `toInt` reads it; `none` for other records. -/
def locX (line : List Char) : Option Int :=
  match splitSkipEmpty ' ' line with
  | [] => none
  | tag :: values => if tag = "loc:".data then values.head?.map toInt else none

/-- The x field of the last `loc:` record of a batch. -/
def lastLocX (lines : List (List Char)) : Option Int :=
  (lines.filterMap locX).getLast?

/-- The text an `hsv:` record with six value fields makes `readFile` write;
`none` for other records. -/
def hsvEcho (k : Int) (line : List Char) : Option String :=
  match splitSkipEmpty ' ' line with
  | [] => none
  | tag :: values =>
    if tag = "hsv:".data then
      match values with
      | hue :: hueTolerance :: saturation :: saturationTolerance :: value ::
          valueTolerance :: _ =>
        some (String.mk (hsvText k (toInt hue) (toInt hueTolerance) (toInt saturation)
          (toInt saturationTolerance) (toInt value) (toInt valueTolerance)) ++ "\n")
      | _ => none
    else none

/-- What handling one well-formed record does to the worker. -/
def recordEffect (line : List Char) (s : Worker) : Worker :=
  let s1 : Worker := { s with mReading := (locX line).getD s.mReading }
  match hsvEcho s.mToleranceFactor line with
  | some text => streamWrite text s1
  | none => s1

/-! ## Sample environments and workers -/

/-- Both pipe paths exist, the launch succeeds and both opens succeed. -/
def pipesPresent : Env := ⟨true, true, false, true, 5, true⟩

/-- As `pipesPresent`, but the path of the outbound pipe does not exist. -/
def inputMissing : Env := { pipesPresent with inputExists := false }

/-- As `pipesPresent`, but the process cannot be launched and no pipe path exists. -/
def launchFails : Env := ⟨false, false, false, false, 5, true⟩

/-- As `pipesPresent`, but `::open` on the inbound pipe fails. -/
def openFails : Env := { pipesPresent with openResult := -1 }

/-- As `pipesPresent`, but `mInputFile.open` fails. -/
def inputOpenFails : Env := { pipesPresent with inputOpenOk := false }

/-- A worker that reached Ready through `openFifos`, tolerance factor 2. -/
def readyWorker : Worker := openFifos pipesPresent (construct 2)

/-- A Ready worker after a process error. -/
def faultedWorker : Worker := onRoverCvError readyWorker

/-- Three `detect` calls interleaved with a failed launch, a process error, a
failed open of the inbound pipe, the `Terminating` line and a failed open of
the outbound pipe. -/
def faultyCalls : List Event :=
  [Event.detect launchFails, Event.processError, Event.detect openFails,
    Event.consoleLine pipesPresent "Terminating", Event.detect inputOpenFails]


/-- The text `unit` written `k` times in a row. -/
def repeatText : Nat → List Char → List Char
  | 0, _ => []
  | k + 1, unit => unit ++ repeatText k unit

/-- A batch of 4000 bytes: 285 records `loc: 42 3 100`, each with its newline,
and the record `loc: 7 0 1`. -/
def fullBatch : String :=
  String.mk (repeatText 285 "loc: 42 3 100\n".data ++ "loc: 7 0 1".data)

/-- A batch with two `loc:` records around a record with an unknown tag. -/
def sampleBatch : String := "loc: 7 0 100\nbar 1\nloc: 42 3 100\nfoo\n"


/-! ## Lemmas on the effect log -/

theorem writes_append (a b : List Effect) : writes (a ++ b) = writes a ++ writes b := by
  induction a with
  | nil => rfl
  | cons e a ih => cases e <;> simp [writes, ih]

theorem writes_map_streamWrite (q : List String) (f : String → String) (b : Bool) :
    writes (q.map (fun c => Effect.streamWrite (f c) b)) = q.map (fun c => (f c, b)) := by
  induction q with
  | nil => rfl
  | cons c q ih => simp [writes, ih]

theorem launches_append (a b : List Effect) : launches (a ++ b) = launches a + launches b := by
  simp [launches]

theorem launches_map_streamWrite (q : List String) (f : String → String) (b : Bool) :
    launches (q.map (fun c => Effect.streamWrite (f c) b)) = 0 := by
  induction q with
  | nil => rfl
  | cons c q ih => simpa [launches, List.count_cons] using ih

/-! ## Lemmas on the lifecycle operations -/

theorem foldl_streamWrite (q : List String) (s : Worker) :
    q.foldl (fun w command => streamWrite (command ++ "\n") w) s =
      { s with effects := s.effects ++
          q.map (fun command =>
            Effect.streamWrite (command ++ "\n") (s.mInputStreamDevice && s.mInputFileOpen)) } := by
  induction q generalizing s with
  | nil => simp
  | cons c q ih =>
    rw [List.foldl_cons, ih]
    simp [streamWrite]

theorem tryToExecute_eq (s : Worker) :
    tryToExecute s =
      if s.mReady then
        { s with
          mCommandQueue := []
          effects := s.effects ++
            s.mCommandQueue.map (fun command =>
              Effect.streamWrite (command ++ "\n") (s.mInputStreamDevice && s.mInputFileOpen)) }
      else s := by
  unfold tryToExecute
  split
  · rw [foldl_streamWrite]
  · rfl

theorem tryToExecute_mReady (s : Worker) : (tryToExecute s).mReady = s.mReady := by
  rw [tryToExecute_eq]
  split <;> rfl

theorem launches_tryToExecute (s : Worker) :
    launches (tryToExecute s).effects = launches s.effects := by
  rw [tryToExecute_eq]
  split
  · simp [launches_append, launches_map_streamWrite]
  · rfl

theorem launches_openFifos (env : Env) (s : Worker) :
    launches (openFifos env s).effects = launches s.effects := by
  unfold openFifos
  simp only []
  split_ifs <;> simp [launches_tryToExecute, launches_append] <;> simp [launches]

theorem launches_startRoverCv (env : Env) (s : Worker) :
    launches (startRoverCv env s).effects = launches s.effects + 1 := by
  unfold startRoverCv
  simp only []
  split_ifs <;> simp [launches_openFifos, launches_append] <;> simp [launches]

theorem openFifos_success (env : Env) (s : Worker) (hopen : env.openResult ≠ -1)
    (hin : env.inputOpenOk = true) :
    openFifos env s =
      { s with
        mOutputFileDescriptor := env.openResult
        mSocketNotifier := some ⟨env.openResult, true, true⟩
        mInputFileOpen := true
        mInputStreamDevice := true
        mReady := true
        mCommandQueue := []
        effects := s.effects ++ (if s.mInputFileOpen then [Effect.fileClose] else []) ++
          [Effect.osOpen env.openResult, Effect.fileOpen true] ++
          s.mCommandQueue.map (fun command => Effect.streamWrite (command ++ "\n") true) } := by
  unfold openFifos
  simp only [tryToExecute_eq]
  cases ho : s.mInputFileOpen <;> simp [hopen, hin]

theorem openFifos_quiet (env : Env) (s : Worker)
    (h1 : (openFifos env s).mReady = false) :
    writes (openFifos env s).effects = writes s.effects ∧
      (openFifos env s).mCommandQueue = s.mCommandQueue := by
  unfold openFifos at h1 ⊢
  simp only [tryToExecute_eq] at h1 ⊢
  split_ifs at h1 ⊢ <;> simp_all [writes_append, writes]

theorem startRoverCv_eq (env : Env) (s : Worker) :
    startRoverCv env s =
      if env.launchOk then
        openFifos env { s with
          effects := s.effects ++ (if env.wasRunning then [Effect.processClose] else []) ++
            [Effect.processStart, Effect.settle] }
      else
        { s with
          effects := s.effects ++ (if env.wasRunning then [Effect.processClose] else []) ++
            [Effect.processStart] } := by
  unfold startRoverCv
  cases hp : env.wasRunning <;> cases hl : env.launchOk <;> simp

theorem startRoverCv_quiet (env : Env) (s : Worker)
    (h1 : (startRoverCv env s).mReady = false) :
    writes (startRoverCv env s).effects = writes s.effects ∧
      (startRoverCv env s).mCommandQueue = s.mCommandQueue := by
  rw [startRoverCv_eq] at h1 ⊢
  cases hl : env.launchOk
  · simp only [hl, Bool.false_eq_true, ↓reduceIte]
    cases hp : env.wasRunning <;> simp [writes_append, writes]
  · simp only [hl, ↓reduceIte] at h1 ⊢
    have hq := openFifos_quiet env _ h1
    rw [hq.1, hq.2]
    cases hp : env.wasRunning <;> simp [writes_append, writes]

theorem init_quiet (env : Env) (s : Worker) (h : s.mReady = false)
    (h1 : (init env s).mReady = false) :
    writes (init env s).effects = writes s.effects ∧
      (init env s).mCommandQueue = s.mCommandQueue := by
  unfold init initDetector at h1 ⊢
  simp only [h] at h1 ⊢
  split_ifs at h1 ⊢
  · exact startRoverCv_quiet env s h1
  · exact openFifos_quiet env s h1
  · exact ⟨rfl, rfl⟩

theorem detect_quiet (env : Env) (s : Worker) (h : s.mReady = false)
    (h1 : (detect env s).mReady = false) :
    writes (detect env s).effects = writes s.effects ∧
      (detect env s).mCommandQueue = s.mCommandQueue ++ ["detect"] := by
  unfold detect at h1 ⊢
  simp only [h, Bool.not_false, Bool.true_or, if_true] at h1 ⊢
  rw [tryToExecute_mReady] at h1
  have h2 : (init env s).mReady = false := h1
  have hq := init_quiet env s h h2
  rw [tryToExecute_eq]
  simp [h2, hq.1, hq.2]

theorem deinitialize_quiet (s : Worker) :
    writes ( deinitialize s).effects = writes s.effects ∧
      ( deinitialize s).mCommandQueue = s.mCommandQueue := by
  unfold deinitialize
  cases hn : s.mSocketNotifier <;> cases ho : s.mInputFileOpen <;>
    simp [writes_append, writes, ho]

theorem deinitialize_tornDown (s : Worker) (h : s.mReady = false) :
    tornDown ( deinitialize s) := by
  unfold tornDown deinitialize notifierActive
  cases hn : s.mSocketNotifier <;> simp [h, hn]

theorem onConsoleLine_quiet (env : Env) (line : String) (s : Worker)
    (h1 : (onConsoleLine env line s).mReady = false) :
    writes (onConsoleLine env line s).effects = writes s.effects ∧
      (onConsoleLine env line s).mCommandQueue = s.mCommandQueue := by
  unfold onConsoleLine at h1 ⊢
  by_cases hl : line = "Entering video thread loop"
  · have hne : ¬ line = "Terminating" := by rw [hl]; decide
    simp only [hl, hne, if_true, if_false] at h1 ⊢
    simp only [show ¬ ("Entering video thread loop" = "Terminating") by decide, if_false] at h1 ⊢
    exact openFifos_quiet env s h1
  · simp only [hl, if_false] at h1 ⊢
    split_ifs
    · exact deinitialize_quiet _
    · exact ⟨rfl, rfl⟩

theorem step_quiet (e : Event) (s s1 : Worker) (hr : isReadable e = false)
    (h : s.mReady = false) (hs : step e s = Except.ok s1) (h1 : s1.mReady = false) :
    writes s1.effects = writes s.effects ∧
      s1.mCommandQueue = s.mCommandQueue ++ submitted [e] := by
  cases e with
  | init env =>
    simp only [step, Except.ok.injEq] at hs
    subst hs
    simpa [submitted] using init_quiet env s h h1
  | detect env =>
    simp only [step, Except.ok.injEq] at hs
    subst hs
    simpa [submitted] using detect_quiet env s h h1
  | processError =>
    simp only [step, Except.ok.injEq] at hs
    subst hs
    simpa [submitted, onRoverCvError] using deinitialize_quiet { s with mReady := false }
  | consoleLine env line =>
    simp only [step, Except.ok.injEq] at hs
    subst hs
    simpa [submitted] using onConsoleLine_quiet env line s h1
  | readable pipe => simp [isReadable] at hr

theorem submitted_cons (e : Event) (es : List Event) :
    submitted (e :: es) = submitted [e] ++ submitted es := by
  cases e <;> simp [submitted]

theorem run_quiet (evs : List Event) (s : Worker) (h : s.mReady = false)
    (hq : staysNotReady evs s = true) :
    ∃ s1, run evs s = Except.ok s1 ∧ s1.mReady = false ∧
      writes s1.effects = writes s.effects ∧
      s1.mCommandQueue = s.mCommandQueue ++ submitted evs := by
  induction evs generalizing s with
  | nil => exact ⟨s, rfl, h, rfl, by simp [submitted]⟩
  | cons e es ih =>
    simp only [staysNotReady, Bool.and_eq_true, Bool.not_eq_true'] at hq
    obtain ⟨hr, hrest⟩ := hq
    cases hs : step e s with
    | error f => simp [hs] at hrest
    | ok s1 =>
      simp only [hs, Bool.and_eq_true, Bool.not_eq_true'] at hrest
      obtain ⟨h1, hes⟩ := hrest
      obtain ⟨s2, hrun, h2, hw, hc⟩ := ih s1 h1 hes
      have hstep := step_quiet e s s1 hr h hs h1
      refine ⟨s2, ?_, h2, ?_, ?_⟩
      · simp [run, hs, hrun]
      · rw [hw, hstep.1]
      · rw [hc, hstep.2, submitted_cons e es, List.append_assoc]

/-- What a successful `openFifos` leaves behind: the worker is Ready with both
pipe handles open, the queue is empty, and the log has gained exactly one write
per queued command, in order, each to the open pipe. -/
theorem openFifos_flush (env : Env) (s : Worker) (hopen : env.openResult ≠ -1)
    (hin : env.inputOpenOk = true) :
    (openFifos env s).mReady = true ∧ (openFifos env s).mInputStreamDevice = true ∧
      (openFifos env s).mInputFileOpen = true ∧ (openFifos env s).mCommandQueue = [] ∧
      writes (openFifos env s).effects =
        writes s.effects ++ s.mCommandQueue.map (fun command => (command ++ "\n", true)) := by
  rw [openFifos_success env s hopen hin]
  refine ⟨rfl, rfl, rfl, rfl, ?_⟩
  cases ho : s.mInputFileOpen <;> simp [writes_append, writes, writes_map_streamWrite]

theorem init_flush (env : Env) (s : Worker) (h : s.mReady = false)
    (hstart : (env.inputExists = true ∧ env.outputExists = true) ∨ env.launchOk = true)
    (hopen : env.openResult ≠ -1) (hin : env.inputOpenOk = true) :
    (init env s).mReady = true ∧ (init env s).mInputStreamDevice = true ∧
      (init env s).mInputFileOpen = true ∧ (init env s).mCommandQueue = [] ∧
      writes (init env s).effects =
        writes s.effects ++ s.mCommandQueue.map (fun command => (command ++ "\n", true)) := by
  unfold init initDetector
  simp only [h, Bool.not_false, Bool.true_or, if_true]
  split_ifs with hmiss
  · have hl : env.launchOk = true := by
      rcases hstart with ⟨hi, ho⟩ | hl
      · simp [hi, ho] at hmiss
      · exact hl
    rw [startRoverCv_eq]
    simp only [hl, if_true]
    have hf := openFifos_flush env { s with
      effects := s.effects ++ (if env.wasRunning then [Effect.processClose] else []) ++
        [Effect.processStart, Effect.settle] } hopen hin
    refine ⟨hf.1, hf.2.1, hf.2.2.1, hf.2.2.2.1, ?_⟩
    rw [hf.2.2.2.2]
    cases hp : env.wasRunning <;> simp [writes_append, writes]
  · exact openFifos_flush env s hopen hin

theorem detect_flush (env : Env) (s : Worker) (h : s.mReady = false)
    (hstart : (env.inputExists = true ∧ env.outputExists = true) ∨ env.launchOk = true)
    (hopen : env.openResult ≠ -1) (hin : env.inputOpenOk = true) :
    (detect env s).mReady = true ∧ (detect env s).mCommandQueue = [] ∧
      writes (detect env s).effects =
        writes s.effects ++
          (s.mCommandQueue ++ ["detect"]).map (fun command => (command ++ "\n", true)) := by
  obtain ⟨hr, hd, ho, hq, hw⟩ := init_flush env s h hstart hopen hin
  unfold detect
  simp only [h, Bool.not_false, Bool.true_or, if_true]
  rw [tryToExecute_eq]
  simp [hr, hd, ho, hq, hw, writes_append, writes]

/-! ## Lemmas on numerals -/

theorem digitValue_ofNat : ∀ m < 10, digitValue (Char.ofNat (48 + m)) = some m := by decide

theorem digit_not_space : ∀ m < 10, (Char.ofNat (48 + m)).isWhitespace = false := by decide

theorem digit_not_sign : ∀ m < 10, Char.ofNat (48 + m) ≠ '-' ∧ Char.ofNat (48 + m) ≠ '+' := by
  decide

theorem parseDigits_decimalAux (fuel n : Nat) (rest : List Char) (o : Option Nat)
    (ho : o.getD 0 = 0) (hn : n < fuel) :
    parseDigits o (decimalAux fuel n rest) = parseDigits (some n) rest := by
  induction fuel generalizing n rest with
  | zero => omega
  | succ fuel ih =>
    unfold decimalAux
    simp only []
    have hd := digitValue_ofNat (n % 10) (Nat.mod_lt _ (by decide))
    split_ifs with h0
    · have : n % 10 = n := by omega
      simp only [parseDigits, hd, ho]
      rw [this]
      simp
    · rw [ih (n / 10) _ (by omega)]
      simp only [parseDigits, hd, Option.getD_some]
      congr 2
      omega

theorem parseDigits_decimal (n : Nat) : parseDigits none (decimal n) = some n := by
  unfold decimal
  rw [parseDigits_decimalAux (n + 1) n [] none rfl (by omega)]
  rfl

theorem decimalAux_digits (fuel n : Nat) (acc : List Char) :
    ∀ c ∈ decimalAux fuel n acc, c ∈ acc ∨ ∃ m, m < 10 ∧ c = Char.ofNat (48 + m) := by
  induction fuel generalizing n acc with
  | zero => intro c hc; exact Or.inl hc
  | succ fuel ih =>
    intro c hc
    unfold decimalAux at hc
    simp only [] at hc
    split_ifs at hc
    · rcases List.mem_cons.1 hc with h | h
      · exact Or.inr ⟨n % 10, Nat.mod_lt _ (by decide), h⟩
      · exact Or.inl h
    · rcases ih _ _ c hc with h | h
      · rcases List.mem_cons.1 h with h | h
        · exact Or.inr ⟨n % 10, Nat.mod_lt _ (by decide), h⟩
        · exact Or.inl h
      · exact Or.inr h

theorem decimal_digits (n : Nat) : ∀ c ∈ decimal n, ∃ m, m < 10 ∧ c = Char.ofNat (48 + m) := by
  intro c hc
  rcases decimalAux_digits (n + 1) n [] c hc with h | h
  · simp at h
  · exact h

theorem dropWhile_none (p : Char → Bool) (l : List Char) (h : ∀ c ∈ l, p c = false) :
    l.dropWhile p = l := by
  cases l with
  | nil => rfl
  | cons c cs => simp [List.dropWhile, h c (List.mem_cons_self _ _)]

theorem trimSpace_none (l : List Char) (h : ∀ c ∈ l, c.isWhitespace = false) :
    trimSpace l = l := by
  unfold trimSpace
  rw [dropWhile_none _ l h, dropWhile_none _ l.reverse (fun c hc => h c (List.mem_reverse.1 hc))]
  simp

/-- Reading back the numeral of a 32-bit integer gives the integer. -/
theorem toInt_formatInt (v : Int) (hlo : -2147483648 ≤ v) (hhi : v ≤ 2147483647) :
    toInt (formatInt v) = v := by
  have hp := parseDigits_decimal v.natAbs
  have hdig := decimal_digits v.natAbs
  cases hd : decimal v.natAbs with
  | nil => rw [hd] at hp; simp [parseDigits] at hp
  | cons c cs =>
    obtain ⟨m, hm, hc⟩ := hdig c (by rw [hd]; exact List.mem_cons_self _ _)
    have hsign := digit_not_sign m hm
    rw [← hc] at hsign
    have hspace : ∀ x ∈ decimal v.natAbs, x.isWhitespace = false := by
      intro x hx
      obtain ⟨k, hk, hx⟩ := hdig x hx
      rw [hx]
      exact digit_not_space k hk
    unfold toInt formatInt
    by_cases hneg : v < 0
    · have htrim : trimSpace ('-' :: decimal v.natAbs) = '-' :: decimal v.natAbs := by
        apply trimSpace_none
        intro x hx
        rcases List.mem_cons.1 hx with h | h
        · rw [h]; decide
        · exact hspace x h
      have habs : (v.natAbs : Int) = -v := Int.ofNat_natAbs_of_nonpos (by omega)
      simp only [hneg, if_true, htrim, List.head?_cons, List.tail_cons]
      simp [hp, habs]
      omega
    · have htrim : trimSpace (decimal v.natAbs) = decimal v.natAbs := trimSpace_none _ hspace
      have habs : (v.natAbs : Int) = v := Int.natAbs_of_nonneg (by omega)
      simp only [hneg, if_false, htrim]
      rw [hd] at hp ⊢
      simp [hsign.1, hsign.2, hp, habs]
      omega

/-! ## Lemmas on `readFile` -/

theorem loc_ne_hsv : ¬ ("loc:".data = "hsv:".data) := by decide

theorem parseRecord_wellFormed (line : List Char) (s : Worker) (h : wellFormed line = true) :
    parseRecord line s = Except.ok (recordEffect line s) := by
  unfold wellFormed at h
  unfold parseRecord recordEffect locX hsvEcho
  generalize splitSkipEmpty ' ' line = fields at h ⊢
  match fields, h with
  | tag :: values, h =>
    by_cases hl : tag = "loc:".data
    · simp only [hl, if_true] at h
      match values, h with
      | x :: angle :: mass :: rest, _ =>
        have := loc_ne_hsv
        simp [fieldAt, hl, this]
    · by_cases hh : tag = "hsv:".data
      · simp only [hl, hh, if_true, if_false] at h
        match values, h with
        | hue :: hueTolerance :: saturation :: saturationTolerance :: value ::
            valueTolerance :: rest, _ =>
          have := loc_ne_hsv
          simp [fieldAt, hh, Ne.symm this]
      · simp [fieldAt, hl, hh]

theorem parseRecords_wellFormed (lines : List (List Char)) (s : Worker)
    (h : ∀ line ∈ lines, wellFormed line = true) :
    parseRecords lines s = Except.ok (lines.foldl (fun w line => recordEffect line w) s) := by
  induction lines generalizing s with
  | nil => rfl
  | cons line lines ih =>
    simp only [parseRecords, parseRecord_wellFormed line s (h line (List.mem_cons_self _ _)),
      List.foldl_cons]
    exact ih _ (fun l hl => h l (List.mem_cons_of_mem _ hl))

theorem recordEffect_frame (line : List Char) (s : Worker) :
    recordEffect line s =
      { s with
        mReading := (locX line).getD s.mReading
        effects := s.effects ++
          ((hsvEcho s.mToleranceFactor line).toList.map (fun text =>
            Effect.streamWrite text (s.mInputStreamDevice && s.mInputFileOpen))) } := by
  unfold recordEffect
  cases hsvEcho s.mToleranceFactor line <;> simp [streamWrite]

theorem getD_lastLocX_cons (line : List Char) (lines : List (List Char)) (r : Int) :
    (lastLocX (line :: lines)).getD r = (lastLocX lines).getD ((locX line).getD r) := by
  unfold lastLocX
  cases hx : locX line with
  | none => simp [List.filterMap_cons, hx]
  | some x =>
    simp only [List.filterMap_cons, hx, List.getLast?_cons, Option.getD_some]

theorem foldl_recordEffect (lines : List (List Char)) (s : Worker) :
    lines.foldl (fun w line => recordEffect line w) s =
      { s with
        mReading := (lastLocX lines).getD s.mReading
        effects := s.effects ++
          (lines.filterMap (hsvEcho s.mToleranceFactor)).map (fun text =>
            Effect.streamWrite text (s.mInputStreamDevice && s.mInputFileOpen)) } := by
  induction lines generalizing s with
  | nil => simp [lastLocX]
  | cons line lines ih =>
    rw [List.foldl_cons, ih, recordEffect_frame, getD_lastLocX_cons]
    cases he : hsvEcho s.mToleranceFactor line <;> simp [List.filterMap_cons, he]

theorem linesRead_below_buffer (bytes : List Char) (h : bytes.length < bufferSize) :
    linesRead bytes = Except.ok (cString bytes) := by
  unfold linesRead
  have hnot : ¬ bufferSize ≤ bytes.length := by omega
  simp [hnot]

/-- The slot `readFile` on a batch of well-formed records that leaves room for
the terminating NUL in the buffer. -/
theorem readFile_wellFormed (s : Worker) (n : SocketNotifier) (data : String)
    (hn : s.mSocketNotifier = some n) (hfd : 0 ≤ s.mOutputFileDescriptor)
    (hsize : data.length < bufferSize)
    (hwf : ∀ line ∈ records data, wellFormed line = true) :
    readFile (some data) s =
      Except.ok { s with
        mSocketNotifier := some { n with enabled := true }
        mReading := (lastLocX (records data)).getD s.mReading
        effects := s.effects ++ [Effect.osRead s.mOutputFileDescriptor] ++
          ((records data).filterMap (hsvEcho s.mToleranceFactor)).map (fun text =>
            Effect.streamWrite text (s.mInputStreamDevice && s.mInputFileOpen)) } := by
  unfold readFile
  have hlt : ¬ s.mOutputFileDescriptor < 0 := by omega
  have hlen : (data.data.take bufferSize).length < bufferSize := by
    rw [List.length_take]
    exact lt_of_le_of_lt (Nat.min_le_right _ _) hsize
  simp only [setEnabled, hn, osRead, hlt, if_false, Option.map,
    linesRead_below_buffer _ hlen]
  have := parseRecords_wellFormed (records data)
    { s with
      mSocketNotifier := some { n with enabled := false }
      effects := s.effects ++ [Effect.osRead s.mOutputFileDescriptor] } hwf
  unfold records at this
  simp only [this, foldl_recordEffect]
  rfl

theorem locX_none_of_tag (line : List Char) (h : tagOf line ≠ some "loc:".data) :
    locX line = none := by
  unfold tagOf at h
  unfold locX
  cases hf : splitSkipEmpty ' ' line with
  | nil => rfl
  | cons tag values =>
    rw [hf] at h
    have : ¬ tag = "loc:".data := fun ht => h (by simp [ht])
    simp [this]

theorem hsvEcho_none_of_tag (k : Int) (line : List Char) (h : tagOf line ≠ some "hsv:".data) :
    hsvEcho k line = none := by
  unfold tagOf at h
  unfold hsvEcho
  cases hf : splitSkipEmpty ' ' line with
  | nil => rfl
  | cons tag values =>
    rw [hf] at h
    have : ¬ tag = "hsv:".data := fun ht => h (by simp [ht])
    simp [this]

theorem lastLocX_none (lines : List (List Char))
    (h : ∀ line ∈ lines, tagOf line ≠ some "loc:".data) : lastLocX lines = none := by
  unfold lastLocX
  have : lines.filterMap locX = [] := by
    rw [List.filterMap_eq_nil_iff]
    intro l hl
    exact locX_none_of_tag l (h l hl)
  rw [this]
  rfl

theorem lastLocX_append (pre post : List (List Char)) (line : List Char) (x : Int)
    (hx : locX line = some x) (hpost : ∀ l ∈ post, tagOf l ≠ some "loc:".data) :
    lastLocX (pre ++ line :: post) = some x := by
  unfold lastLocX
  have : post.filterMap locX = [] := by
    rw [List.filterMap_eq_nil_iff]
    intro l hl
    exact locX_none_of_tag l (hpost l hl)
  rw [List.filterMap_append, List.filterMap_cons, hx, this]
  simp

/-! ## Lemmas on the full buffer -/

theorem length_repeatText (k : Nat) (unit : List Char) :
    (repeatText k unit).length = k * unit.length := by
  induction k with
  | zero => simp [repeatText]
  | succ k ih => simp [repeatText, ih, Nat.succ_mul, Nat.add_comm]

theorem mem_repeatText (k : Nat) (unit : List Char) : ∀ c ∈ repeatText k unit, c ∈ unit := by
  induction k with
  | zero => intro c hc; simp [repeatText] at hc
  | succ k ih =>
    intro c hc
    rcases List.mem_append.1 hc with h | h
    · exact h
    · exact ih c h

theorem splitKeep_append_sep (sep : Char) (p rest : List Char) (hp : ∀ c ∈ p, c ≠ sep) :
    splitKeep sep (p ++ sep :: rest) = p :: splitKeep sep rest := by
  induction p with
  | nil => simp [splitKeep]
  | cons c p ih =>
    have hc : c ≠ sep := hp c (List.mem_cons_self _ _)
    have ih1 := ih (fun x hx => hp x (List.mem_cons_of_mem _ hx))
    simp [splitKeep, hc, ih1]

theorem splitKeep_repeatText (sep : Char) (k : Nat) (p tail : List Char)
    (hp : ∀ c ∈ p, c ≠ sep) :
    splitKeep sep (repeatText k (p ++ [sep]) ++ tail) =
      List.replicate k p ++ splitKeep sep tail := by
  induction k with
  | zero => simp [repeatText]
  | succ k ih =>
    have hshape : repeatText (k + 1) (p ++ [sep]) ++ tail =
        p ++ sep :: (repeatText k (p ++ [sep]) ++ tail) := by
      simp [repeatText]
    rw [hshape, splitKeep_append_sep sep p _ hp, ih, List.replicate_succ, List.cons_append]

theorem cString_no_nul (bytes : List Char) (h : ∀ c ∈ bytes, c ≠ Char.ofNat 0) :
    cString bytes = bytes := by
  unfold cString
  rw [List.takeWhile_eq_self_iff]
  intro c hc
  simpa using h c hc

theorem fullBatch_no_nul : ∀ c ∈ fullBatch.data, c ≠ Char.ofNat 0 := by
  intro c hc
  rcases List.mem_append.1 hc with h | h
  · have hu : ∀ x ∈ "loc: 42 3 100\n".data, x ≠ Char.ofNat 0 := by decide
    exact hu c (mem_repeatText _ _ c h)
  · have ht : ∀ x ∈ "loc: 7 0 1".data, x ≠ Char.ofNat 0 := by decide
    exact ht c h

theorem fullBatch_length : fullBatch.length = bufferSize := by
  show (repeatText 285 "loc: 42 3 100\n".data ++ "loc: 7 0 1".data).length = 4000
  rw [List.length_append, length_repeatText]
  rfl

theorem records_fullBatch :
    records fullBatch = List.replicate 285 "loc: 42 3 100".data ++ ["loc: 7 0 1".data] := by
  unfold records
  have hlen : fullBatch.data.length ≤ bufferSize := le_of_eq fullBatch_length
  rw [List.take_of_length_le hlen, cString_no_nul _ fullBatch_no_nul]
  unfold splitSkipEmpty
  have hsplit : splitKeep '\n' fullBatch.data =
      List.replicate 285 "loc: 42 3 100".data ++ ["loc: 7 0 1".data] :=
    splitKeep_repeatText '\n' 285 "loc: 42 3 100".data "loc: 7 0 1".data (by decide)
  rw [hsplit, List.filter_eq_self]
  intro part hpart
  rcases List.mem_append.1 hpart with h | h
  · rw [List.eq_of_mem_replicate h]; rfl
  · rw [List.mem_singleton.1 h]; rfl

theorem readFile_full_buffer (s : Worker) (n : SocketNotifier) (data : String)
    (hn : s.mSocketNotifier = some n) (hfd : 0 ≤ s.mOutputFileDescriptor)
    (hfull : bufferSize ≤ data.length)
    (hnul : ∀ c ∈ data.data.take bufferSize, c ≠ Char.ofNat 0) :
    readFile (some data) s = Except.error Fault.bufferOverread := by
  unfold readFile
  have hlt : ¬ s.mOutputFileDescriptor < 0 := by omega
  have hlen : bufferSize ≤ (data.data.take bufferSize).length := by
    rw [List.length_take]
    exact le_min (le_refl _) hfull
  have hall : (data.data.take bufferSize).all (fun c => c != Char.ofNat 0) = true := by
    rw [List.all_eq_true]
    intro c hc
    simpa using hnul c hc
  simp only [setEnabled, hn, osRead, hlt, if_false, Option.map, linesRead, hlen, hall,
    and_self, if_true]

/-! ## Lemmas on `QString::arg` -/

theorem digit_not_percent : ∀ m < 10, Char.ofNat (48 + m) ≠ '%' := by decide

theorem minEscape_append (p r : List Char) (hp : ∀ c ∈ p, c ≠ '%') :
    minEscape (p ++ r) = minEscape r := by
  induction p with
  | nil => rfl
  | cons c p ih =>
    have hc : c ≠ '%' := hp c (List.mem_cons_self _ _)
    simp only [List.cons_append, minEscape, hc, if_false]
    exact ih (fun x hx => hp x (List.mem_cons_of_mem _ hx))

theorem replaceEscapes_append (target : Nat) (a p r : List Char) (hp : ∀ c ∈ p, c ≠ '%') :
    replaceEscapes target a 0 (p ++ r) = p ++ replaceEscapes target a 0 r := by
  induction p with
  | nil => rfl
  | cons c p ih =>
    have hc : c ≠ '%' := hp c (List.mem_cons_self _ _)
    have ih1 := ih (fun x hx => hp x (List.mem_cons_of_mem _ hx))
    simp [replaceEscapes, hc, ih1]

/-- One `arg` call on a format whose markers all lie in the tail `t`. -/
theorem arg_append (p a t rest : List Char) (n : Nat) (hp : ∀ c ∈ p, c ≠ '%')
    (hmin : minEscape t = some n) (hrep : replaceEscapes n a 0 t = a ++ rest) :
    arg (p ++ t) a = p ++ a ++ rest := by
  unfold arg
  rw [minEscape_append p t hp, hmin]
  simp only []
  rw [replaceEscapes_append n a p t hp, hrep, List.append_assoc]

theorem decimal_no_percent (n : Nat) : ∀ c ∈ decimal n, c ≠ '%' := by
  intro c hc
  obtain ⟨m, hm, rfl⟩ := decimal_digits n c hc
  exact digit_not_percent m hm

theorem formatInt_no_percent (v : Int) : ∀ c ∈ formatInt v, c ≠ '%' := by
  intro c hc
  unfold formatInt at hc
  split_ifs at hc
  · rcases List.mem_cons.1 hc with h | h
    · rw [h]; decide
    · exact decimal_no_percent _ c h
  · exact decimal_no_percent _ c hc

theorem stripTrailingZeros_subset (l : List Char) : ∀ c ∈ stripTrailingZeros l, c ∈ l := by
  intro c hc
  unfold stripTrailingZeros at hc
  rw [List.mem_reverse] at hc
  exact List.mem_reverse.1 ((List.dropWhile_suffix _).subset hc)

theorem mantissaText_no_percent (m : Nat) : ∀ c ∈ mantissaText m, c ≠ '%' := by
  intro c hc
  have hsub : ∀ x ∈ stripTrailingZeros (decimal m), x ≠ '%' := fun x hx =>
    decimal_no_percent m x (stripTrailingZeros_subset _ x hx)
  unfold mantissaText at hc
  split at hc
  · rw [List.mem_singleton.1 hc]; decide
  · rename_i d hd
    rw [List.mem_singleton.1 hc]
    exact hsub d (by rw [hd]; exact List.mem_cons_self _ _)
  · rename_i d ds _ hd
    rcases List.mem_cons.1 hc with h | h
    · rw [h]; exact hsub d (by rw [hd]; exact List.mem_cons_self _ _)
    · rcases List.mem_cons.1 h with h | h
      · rw [h]; decide
      · exact hsub c (by rw [hd]; exact List.mem_cons_of_mem _ h)

theorem exponentText_no_percent (e : Nat) : ∀ c ∈ exponentText e, c ≠ '%' := by
  intro c hc
  unfold exponentText at hc
  rcases List.mem_append.1 hc with h | h
  · rcases List.mem_cons.1 h with h | h
    · rw [h]; decide
    · rw [List.mem_singleton.1 h]; decide
  · split_ifs at h
    · rcases List.mem_cons.1 h with h | h
      · rw [h]; decide
      · exact decimal_no_percent _ c h
    · exact decimal_no_percent _ c h

theorem formatG_no_percent (v : Int) : ∀ c ∈ formatG v, c ≠ '%' := by
  intro c hc
  have hsign : ∀ x ∈ (if v < 0 then ['-'] else []), x ≠ '%' := by
    intro x hx
    split_ifs at hx
    · rw [List.mem_singleton.1 hx]; decide
    · simp at hx
  unfold formatG at hc
  simp only [] at hc
  by_cases hsmall : v.natAbs < 1000000
  · simp only [hsmall, if_true] at hc
    rcases List.mem_append.1 hc with h | h
    · exact hsign c h
    · exact decimal_no_percent _ c h
  · simp only [hsmall, if_false] at hc
    rcases List.mem_append.1 hc with h | h
    · rcases List.mem_append.1 h with h | h
      · exact hsign c h
      · exact mantissaText_no_percent _ c h
    · exact exponentText_no_percent _ c h

theorem no_percent_append (p q : List Char) (hp : ∀ c ∈ p, c ≠ '%') (hq : ∀ c ∈ q, c ≠ '%') :
    ∀ c ∈ p ++ q, c ≠ '%' := by
  intro c hc
  rcases List.mem_append.1 hc with h | h
  · exact hp c h
  · exact hq c h

/-- One `arg` call that fills the first marker of the tail `t` and leaves a
blank and the tail `rest` behind it. -/
theorem arg_next (p a t rest : List Char) (n : Nat) (hp : ∀ c ∈ p, c ≠ '%')
    (hmin : minEscape t = some n) (hrep : replaceEscapes n a 0 t = a ++ ' ' :: rest) :
    arg (p ++ t) a = (p ++ a ++ " ".data) ++ rest := by
  rw [arg_append p a t (' ' :: rest) n hp hmin hrep]
  simp

/-- The text written for an `hsv:` record, for all field values: the six
arguments in order, and after them the seventh place marker of the format
string, for which no argument is given. -/
theorem hsvText_eq (k hue hueTolerance saturation saturationTolerance value valueTolerance : Int) :
    hsvText k hue hueTolerance saturation saturationTolerance value valueTolerance =
      "hsv ".data ++ formatInt hue ++ " ".data ++ formatG (hueTolerance * k) ++ " ".data ++
        formatInt saturation ++ " ".data ++ formatG (saturationTolerance * k) ++ " ".data ++
        formatInt value ++ " ".data ++ formatG (valueTolerance * k) ++ " %6".data := by
  have hsp : ∀ c ∈ " ".data, c ≠ '%' := by decide
  have p0 : ∀ c ∈ "hsv ".data, c ≠ '%' := by decide
  have p1 := no_percent_append _ _ (no_percent_append _ _ p0 (formatInt_no_percent hue)) hsp
  have p2 := no_percent_append _ _
    (no_percent_append _ _ p1 (formatG_no_percent (hueTolerance * k))) hsp
  have p3 := no_percent_append _ _ (no_percent_append _ _ p2 (formatInt_no_percent saturation)) hsp
  have p4 := no_percent_append _ _
    (no_percent_append _ _ p3 (formatG_no_percent (saturationTolerance * k))) hsp
  have p5 := no_percent_append _ _ (no_percent_append _ _ p4 (formatInt_no_percent value)) hsp
  unfold hsvText
  have e0 : "hsv %0 %1 %2 %3 %4 %5 %6".data = "hsv ".data ++ "%0 %1 %2 %3 %4 %5 %6".data := rfl
  rw [e0,
    arg_next _ (formatInt hue) "%0 %1 %2 %3 %4 %5 %6".data "%1 %2 %3 %4 %5 %6".data 0 p0 rfl rfl,
    arg_next _ (formatG (hueTolerance * k)) "%1 %2 %3 %4 %5 %6".data "%2 %3 %4 %5 %6".data 1 p1
      rfl rfl,
    arg_next _ (formatInt saturation) "%2 %3 %4 %5 %6".data "%3 %4 %5 %6".data 2 p2 rfl rfl,
    arg_next _ (formatG (saturationTolerance * k)) "%3 %4 %5 %6".data "%4 %5 %6".data 3 p3
      rfl rfl,
    arg_next _ (formatInt value) "%4 %5 %6".data "%5 %6".data 4 p4 rfl rfl,
    arg_next _ (formatG (valueTolerance * k)) "%5 %6".data "%6".data 5 p5 rfl rfl]
  simp only [List.append_assoc]
  rfl

/-! ## The claims -/

/-- C1: queued commands are delivered in order, exactly once, when Ready is
reached, also across faults. From a not-Ready worker with queue `q`, along any
sequence of `detect` calls, `init` calls, process errors and console lines
(failed launches and failed pipe opens included) during which the worker stays
not Ready, nothing is written to the outbound stream and the queue grows to `q`
followed by the `detect` commands in submission order. The first successful
`openFifos` afterwards writes exactly these commands to the open outbound pipe,
each once and newline-terminated, in FIFO order, and empties the queue; when
Ready is reached inside a further `detect` call, that call's own command follows
them. -/
theorem queued_commands_flushed_in_order (s : Worker) (evs : List Event) (env : Env)
    (h : s.mReady = false) (hq : staysNotReady evs s = true)
    (hopen : env.openResult ≠ -1) (hin : env.inputOpenOk = true) :
    ∃ s1, run evs s = Except.ok s1 ∧ s1.mReady = false ∧
      writes s1.effects = writes s.effects ∧
      s1.mCommandQueue = s.mCommandQueue ++ submitted evs ∧
      (openFifos env s1).mReady = true ∧
      (openFifos env s1).mCommandQueue = [] ∧
      writes (openFifos env s1).effects =
        writes s.effects ++
          (s.mCommandQueue ++ submitted evs).map (fun command => (command ++ "\n", true)) ∧
      (((env.inputExists = true ∧ env.outputExists = true) ∨ env.launchOk = true) →
        (detect env s1).mReady = true ∧ (detect env s1).mCommandQueue = [] ∧
          writes (detect env s1).effects =
            writes s.effects ++
              (s.mCommandQueue ++ submitted evs ++ ["detect"]).map
                (fun command => (command ++ "\n", true))) := by
  obtain ⟨s1, hrun, h1, hw, hc⟩ := run_quiet evs s h hq
  obtain ⟨hr, _, _, hempty, hflush⟩ := openFifos_flush env s1 hopen hin
  refine ⟨s1, hrun, h1, hw, hc, hr, hempty, ?_, ?_⟩
  · rw [hflush, hw, hc]
  · intro hstart
    obtain ⟨hr2, hempty2, hflush2⟩ := detect_flush env s1 h1 hstart hopen hin
    refine ⟨hr2, hempty2, ?_⟩
    rw [hflush2, hw, hc]

/-- Witness for C1: three `detect` calls between a failed launch, a process
error, two failed pipe opens and the `Terminating` line; the next successful
`openFifos` writes the three commands. -/
theorem queued_commands_flushed_in_order_witness :
    (construct 2).mReady = false ∧ staysNotReady faultyCalls (construct 2) = true ∧
      ∃ s1, run faultyCalls (construct 2) = Except.ok s1 ∧
        s1.mCommandQueue = ["detect", "detect", "detect"] ∧
        writes s1.effects = [] ∧
        writes (openFifos pipesPresent s1).effects =
          [("detect\n", true), ("detect\n", true), ("detect\n", true)] := by
  refine ⟨rfl, rfl, ?_⟩
  obtain ⟨s1, hrun, _, hw, hc, _, _, hflush, _⟩ :=
    queued_commands_flushed_in_order (construct 2) faultyCalls pipesPresent rfl rfl
      (by decide) rfl
  exact ⟨s1, hrun, hc, hw, hflush⟩

/-- C2: for every prior state, after `onRoverCvError`, and after a console line
equal to `Terminating` is handled (as one line, or as the whole text read from
the process), the worker is not Ready, the inbound descriptor is the not-open
marker `-1`, the outbound file is closed and the read notification is disabled. -/
theorem fault_tears_down (s : Worker) (env : Env) (envs : Nat → Env) :
    tornDown (onRoverCvError s) ∧ tornDown (onConsoleLine env "Terminating" s) ∧
      tornDown (onRoverCvReadyReadStandardOutput envs "Terminating" s) := by
  refine ⟨deinitialize_tornDown _ rfl, ?_, ?_⟩
  · have hline : onConsoleLine env "Terminating" s = deinitialize { s with mReady := false } := by
      simp [onConsoleLine]
    rw [hline]
    exact deinitialize_tornDown _ rfl
  · have hdata : onRoverCvReadyReadStandardOutput envs "Terminating" s =
        deinitialize { s with mReady := false } := by
      simp [onRoverCvReadyReadStandardOutput, splitKeep, onConsoleLine, List.enum]
    rw [hdata]
    exact deinitialize_tornDown _ rfl

/-- C3, as amended: on a worker that is not Ready, `init` takes the start path
`startRoverCv` and launches the process exactly when one of the two pipe paths
does not exist; when both paths exist it only reopens the pipes with
`openFifos` and launches nothing. -/
theorem init_not_ready_restarts_or_reopens (s : Worker) (env : Env) (h : s.mReady = false) :
    ((env.inputExists = false ∨ env.outputExists = false) →
        init env s = startRoverCv env s ∧
          launches (init env s).effects = launches s.effects + 1) ∧
      ((env.inputExists = true ∧ env.outputExists = true) →
        init env s = openFifos env s ∧
          launches (init env s).effects = launches s.effects) := by
  constructor
  · intro hm
    have hi : init env s = startRoverCv env s := by
      rcases hm with hm | hm <;> simp [init, initDetector, h, hm]
    exact ⟨hi, hi ▸ launches_startRoverCv env s⟩
  · rintro ⟨hi, ho⟩
    have hopen : init env s = openFifos env s := by
      simp [init, initDetector, h, hi, ho]
    exact ⟨hopen, hopen ▸ launches_openFifos env s⟩

/-- Witness for C3 as amended: the worker faulted by a process error, once with
the outbound pipe path missing and once with both paths present. -/
theorem init_not_ready_restarts_or_reopens_witness :
    faultedWorker.mReady = false ∧
      (init inputMissing faultedWorker = startRoverCv inputMissing faultedWorker ∧
        launches (init inputMissing faultedWorker).effects =
          launches faultedWorker.effects + 1) ∧
      (init pipesPresent faultedWorker = openFifos pipesPresent faultedWorker ∧
        launches (init pipesPresent faultedWorker).effects = launches faultedWorker.effects) :=
  ⟨rfl, (init_not_ready_restarts_or_reopens faultedWorker inputMissing rfl).1 (Or.inl rfl),
    (init_not_ready_restarts_or_reopens faultedWorker pipesPresent rfl).2 ⟨rfl, rfl⟩⟩

/-- C3 as stated fails: on the worker faulted by a process error, with both pipe
paths still on the filesystem, `init` launches no process; it goes to
`openFifos` and is Ready again without any restart. -/
theorem init_faulted_reopens_without_launch :
    tornDown faultedWorker ∧
      init pipesPresent faultedWorker = openFifos pipesPresent faultedWorker ∧
      launches (init pipesPresent faultedWorker).effects = launches faultedWorker.effects ∧
      launches (init pipesPresent faultedWorker).effects ≠ launches faultedWorker.effects + 1 ∧
      (init pipesPresent faultedWorker).mReady = true :=
  ⟨deinitialize_tornDown _ rfl, rfl, rfl, by decide, rfl⟩

/-- C4: the code does not write the record the claim names. For all field
values and every integer tolerance factor the text built for an `hsv:` record
is the six arguments in order followed by ` %6`: the format string has seven
place markers for six arguments, so the last marker stays in the output. For
the record `hsv: 10 5 20 6 30 7` and tolerance factor 2 the text written to the
open outbound pipe is `hsv 10 10 20 12 30 14 %6` and a newline. With a product
of `10^6` the tolerance is moreover printed in exponent form. -/
theorem hsv_echo_keeps_place_marker :
    (∀ k hue hueTolerance saturation saturationTolerance value valueTolerance : Int,
      hsvText k hue hueTolerance saturation saturationTolerance value valueTolerance =
        "hsv ".data ++ formatInt hue ++ " ".data ++ formatG (hueTolerance * k) ++ " ".data ++
          formatInt saturation ++ " ".data ++ formatG (saturationTolerance * k) ++ " ".data ++
          formatInt value ++ " ".data ++ formatG (valueTolerance * k) ++ " %6".data) ∧
    readFile (some "hsv: 10 5 20 6 30 7\n") readyWorker =
      Except.ok { readyWorker with
        effects := readyWorker.effects ++
          [Effect.osRead 5, Effect.streamWrite "hsv 10 10 20 12 30 14 %6\n" true] } ∧
    readFile (some "hsv: 10 500000 20 6 30 7\n") readyWorker =
      Except.ok { readyWorker with
        effects := readyWorker.effects ++
          [Effect.osRead 5, Effect.streamWrite "hsv 10 1e+06 20 12 30 14 %6\n" true] } :=
  ⟨hsvText_eq, rfl, rfl⟩

/-- C5: the code does not drop a malformed record. A `loc:` record with two
value fields, an `hsv:` record with five, and a line of spaces each make
`readFile` index `parsedLine` out of range, and the records after the malformed
one are not processed. -/
theorem malformed_record_indexes_out_of_range :
    readFile (some "loc: 42 3\n") readyWorker = Except.error Fault.indexOutOfRange ∧
    readFile (some "hsv: 10 5 20 6 30\n") readyWorker = Except.error Fault.indexOutOfRange ∧
    readFile (some "   \n") readyWorker = Except.error Fault.indexOutOfRange ∧
    readFile (some "loc: 42 3\nloc: 7 0 100\n") readyWorker =
      Except.error Fault.indexOutOfRange :=
  ⟨rfl, rfl, rfl, rfl⟩

/-- The reading after one `readFile` on a batch of well-formed records that is
shorter than the buffer: the x field of the last `loc:` record, the previous
value without one; only `hsv:` records write to the stream. -/
theorem reading_below_buffer (s : Worker) (n : SocketNotifier) (data : String)
    (hn : s.mSocketNotifier = some n) (hfd : 0 ≤ s.mOutputFileDescriptor)
    (hsize : data.length < bufferSize)
    (hwf : ∀ line ∈ records data, wellFormed line = true) :
    ∃ s1, readFile (some data) s = Except.ok s1 ∧
      read s1 = (lastLocX (records data)).getD (read s) ∧
      (∀ (pre post : List (List Char)) (line : List Char) (v : Int),
        records data = pre ++ line :: post →
        (∃ rest, splitSkipEmpty ' ' line = "loc:".data :: formatInt v :: rest) →
        -2147483648 ≤ v → v ≤ 2147483647 →
        (∀ l ∈ post, tagOf l ≠ some "loc:".data) → read s1 = v) ∧
      ((∀ line ∈ records data, tagOf line ≠ some "loc:".data) → read s1 = read s) ∧
      writes s1.effects =
        writes s.effects ++
          ((records data).filterMap (hsvEcho s.mToleranceFactor)).map
            (fun text => (text, s.mInputStreamDevice && s.mInputFileOpen)) ∧
      ((∀ line ∈ records data, tagOf line ≠ some "hsv:".data) →
        writes s1.effects = writes s.effects) := by
  refine ⟨_, readFile_wellFormed s n data hn hfd hsize hwf, rfl, ?_, ?_, ?_, ?_⟩
  · rintro pre post line v hsplit ⟨rest, hfields⟩ hlo hhi hpost
    have hx : locX line = some v := by
      unfold locX
      rw [hfields]
      simp [toInt_formatInt v hlo hhi]
    simp [read, hsplit, lastLocX_append pre post line v hx hpost]
  · intro hnone
    simp [read, lastLocX_none _ hnone]
  · have hmap := writes_map_streamWrite
      ((records data).filterMap (hsvEcho s.mToleranceFactor)) (fun text => text)
      (s.mInputStreamDevice && s.mInputFileOpen)
    simp only [writes_append, writes, hmap, List.append_nil]
  · intro hnone
    have : (records data).filterMap (hsvEcho s.mToleranceFactor) = [] := by
      rw [List.filterMap_eq_nil_iff]
      intro l hl
      exact hsvEcho_none_of_tag _ l (hnone l hl)
    simp [this, writes_append, writes]

/-- C6: the code does not give the reading the claim names for every batch of
well-formed records. `readFile` passes the whole size of `char data[4000]` to
`::read` and then converts the buffer with `QString(data)`, so for every worker
with a notifier and an open inbound descriptor, a batch that fills the buffer
and holds no NUL is read past the end of the array. `fullBatch` is such a
batch: 4000 bytes, every record well-formed, last `loc:` record with x field 7,
and `readFile` on it ends in the over-read instead of a reading of 7. For
every batch shorter than the buffer the code does what the claim says: the
reading becomes the x field of the last `loc:` record (for the numeral of a
32-bit integer `v` it is `v`), it keeps its previous value when there is no
`loc:` record, records with unknown tags change neither the reading nor the
stream, `loc: 42 3 100` sets the reading to 42, and the constructor starts the
reading at 0. -/
theorem full_buffer_is_read_past_its_end :
    (∀ (s : Worker) (n : SocketNotifier) (data : String),
      s.mSocketNotifier = some n → 0 ≤ s.mOutputFileDescriptor →
      bufferSize ≤ data.length → (∀ c ∈ data.data.take bufferSize, c ≠ Char.ofNat 0) →
      readFile (some data) s = Except.error Fault.bufferOverread) ∧
    (fullBatch.length = bufferSize ∧
      (∀ line ∈ records fullBatch, wellFormed line = true) ∧
      lastLocX (records fullBatch) = some 7 ∧
      readFile (some fullBatch) readyWorker = Except.error Fault.bufferOverread) ∧
    (∀ (s : Worker) (n : SocketNotifier) (data : String),
      s.mSocketNotifier = some n → 0 ≤ s.mOutputFileDescriptor →
      data.length < bufferSize → (∀ line ∈ records data, wellFormed line = true) →
      ∃ s1, readFile (some data) s = Except.ok s1 ∧
        read s1 = (lastLocX (records data)).getD (read s) ∧
        (∀ (pre post : List (List Char)) (line : List Char) (v : Int),
          records data = pre ++ line :: post →
          (∃ rest, splitSkipEmpty ' ' line = "loc:".data :: formatInt v :: rest) →
          -2147483648 ≤ v → v ≤ 2147483647 →
          (∀ l ∈ post, tagOf l ≠ some "loc:".data) → read s1 = v) ∧
        ((∀ line ∈ records data, tagOf line ≠ some "loc:".data) → read s1 = read s) ∧
        writes s1.effects =
          writes s.effects ++
            ((records data).filterMap (hsvEcho s.mToleranceFactor)).map
              (fun text => (text, s.mInputStreamDevice && s.mInputFileOpen)) ∧
        ((∀ line ∈ records data, tagOf line ≠ some "hsv:".data) →
          writes s1.effects = writes s.effects)) ∧
    (∀ (s : Worker) (n : SocketNotifier),
      s.mSocketNotifier = some n → 0 ≤ s.mOutputFileDescriptor →
      ∃ s2, readFile (some "loc: 42 3 100") s = Except.ok s2 ∧ read s2 = 42) ∧
    (∀ k, read (construct k) = 0) := by
  have hwf : ∀ line ∈ records fullBatch, wellFormed line = true := by
    rw [records_fullBatch]
    intro line hline
    rcases List.mem_append.1 hline with h | h
    · rw [List.eq_of_mem_replicate h]; decide
    · rw [List.mem_singleton.1 h]; decide
  have hlast : lastLocX (records fullBatch) = some 7 := by
    rw [records_fullBatch]
    exact lastLocX_append _ [] _ 7 (by decide) (by simp)
  refine ⟨readFile_full_buffer, ⟨fullBatch_length, hwf, hlast, ?_⟩, reading_below_buffer, ?_,
    fun _ => rfl⟩
  · refine readFile_full_buffer readyWorker ⟨5, true, true⟩ fullBatch rfl (by decide)
      (le_of_eq fullBatch_length.symm) ?_
    intro c hc
    exact fullBatch_no_nul c (List.mem_of_mem_take hc)
  · intro s n hn hfd
    have hone : ∀ line ∈ records "loc: 42 3 100", wellFormed line = true := by decide
    refine ⟨_, readFile_wellFormed s n "loc: 42 3 100" hn hfd (by decide) hone, ?_⟩
    have h42 : lastLocX (records "loc: 42 3 100") = some 42 := by decide
    simp [read, h42]

/-- Witness for C6: below the buffer size the claim holds; a batch with two
`loc:` records and two records with unknown tags, read by the Ready worker. -/
theorem full_buffer_is_read_past_its_end_witness :
    readyWorker.mSocketNotifier = some ⟨5, true, true⟩ ∧
      0 ≤ readyWorker.mOutputFileDescriptor ∧
      sampleBatch.length < bufferSize ∧
      (∀ line ∈ records sampleBatch, wellFormed line = true) ∧
      ∃ s1, readFile (some sampleBatch) readyWorker = Except.ok s1 ∧ read s1 = 42 ∧
        writes s1.effects = writes readyWorker.effects := by
  refine ⟨rfl, by decide, by decide, by decide, ?_⟩
  obtain ⟨s1, hread, hlast, _, _, _, hquiet⟩ :=
    full_buffer_is_read_past_its_end.2.2.1 readyWorker ⟨5, true, true⟩ sampleBatch rfl
      (by decide) (by decide) (by decide)
  exact ⟨s1, hread, hlast.trans (by decide), hquiet (by decide)⟩

/-- C7, as amended: on a Ready worker whose two pipe paths both exist, `init`
changes nothing: no launch, no pipe open, and the ready flag, both pipe handles,
the queue and the reading stay as they are. When the worker is Ready but one
of the pipe paths is missing, `init` takes the start path `startRoverCv` and
launches the process again. -/
theorem init_ready_is_noop_when_pipes_exist (s : Worker) (env : Env) (h : s.mReady = true) :
    ((env.inputExists = true ∧ env.outputExists = true) → init env s = s) ∧
      ((env.inputExists = false ∨ env.outputExists = false) →
        init env s = startRoverCv env s ∧
          launches (init env s).effects = launches s.effects + 1) := by
  constructor
  · rintro ⟨hi, ho⟩
    simp [init, h, hi, ho]
  · intro hm
    have hi : init env s = startRoverCv env s := by
      rcases hm with hm | hm <;> simp [init, initDetector, h, hm]
    exact ⟨hi, hi ▸ launches_startRoverCv env s⟩

/-- Witness for C7 as amended: the Ready worker with both pipe paths present. -/
theorem init_ready_is_noop_when_pipes_exist_witness :
    readyWorker.mReady = true ∧ init pipesPresent readyWorker = readyWorker :=
  ⟨rfl, (init_ready_is_noop_when_pipes_exist readyWorker pipesPresent rfl).1 ⟨rfl, rfl⟩⟩

/-- C7 as stated fails: on the Ready worker with the outbound pipe path missing,
`init` launches the process again, reopens both pipes and so changes the state. -/
theorem init_ready_restarts_when_pipe_missing :
    readyWorker.mReady = true ∧
      launches (init inputMissing readyWorker).effects = launches readyWorker.effects + 1 ∧
      (init inputMissing readyWorker).effects =
        readyWorker.effects ++
          [Effect.processStart, Effect.settle, Effect.fileClose, Effect.osOpen 5,
            Effect.fileOpen true] ∧
      init inputMissing readyWorker ≠ readyWorker :=
  ⟨rfl, rfl, rfl, by decide⟩

/-- C8: for every state, a second `deinitialize` right after the first leaves
every member variable as the first call left it. The function is total, so
the second call raises nothing, and the one thing it hands to the operating
system is `::close(-1)`, the not-open marker: no descriptor released before is
passed to `::close` again, and the outbound file, already closed, is not closed
again. -/
theorem deinitialize_twice (s : Worker) :
    deinitialize ( deinitialize s) =
      { deinitialize s with effects := ( deinitialize s).effects ++ [Effect.osClose (-1)] } := by
  unfold deinitialize
  cases hn : s.mSocketNotifier <;> simp [hn]

/-- C9: the code does write to the outbound stream while the outbound pipe is
closed. First run: the worker becomes Ready, a second `openFifos` closes the
outbound file and fails to open the inbound pipe, leaving `mReady` set, and the
next `detect` flushes its command to the closed file and drops it from the
queue. Second run: `openFifos` fails on the outbound file after it has enabled
the notifier, and `readFile` echoes an `hsv:` record to the file that was never
opened. -/
theorem write_to_closed_pipe_is_reachable :
    run [Event.consoleLine pipesPresent "Entering video thread loop",
         Event.consoleLine openFails "Entering video thread loop",
         Event.detect pipesPresent] (construct 2) =
      Except.ok { construct 2 with
        mSocketNotifier := some ⟨5, true, true⟩
        mInputStreamDevice := true
        mReady := true
        effects := [Effect.osOpen 5, Effect.fileOpen true, Effect.fileClose, Effect.osOpen (-1),
          Effect.streamWrite "detect\n" false] } ∧
    run [Event.consoleLine inputOpenFails "Entering video thread loop",
         Event.readable (some "hsv: 10 5 20 6 30 7\n")] (construct 2) =
      Except.ok { construct 2 with
        mOutputFileDescriptor := 5
        mSocketNotifier := some ⟨5, true, true⟩
        effects := [Effect.osOpen 5, Effect.fileOpen false, Effect.osRead 5,
          Effect.streamWrite "hsv 10 10 20 12 30 14 %6\n" false] } :=
  ⟨rfl, rfl⟩

/-- C10: the code does not keep the bracket on the failing path. For every
worker with a notifier, a failed read makes `readFile` return with the
notifier still disabled, and from that state a later readable notification is
not handled at all: the worker stays as it is whatever the pipe holds. -/
theorem failed_read_leaves_notifier_disabled (s : Worker) (n : SocketNotifier)
    (later : Option String) :
    readFile none { s with mSocketNotifier := some n } =
      Except.ok { s with
        mSocketNotifier := some { n with enabled := false }
        effects := s.effects ++ [Effect.osRead s.mOutputFileDescriptor] } ∧
    step (Event.readable later) { s with
        mSocketNotifier := some { n with enabled := false }
        effects := s.effects ++ [Effect.osRead s.mOutputFileDescriptor] } =
      Except.ok { s with
        mSocketNotifier := some { n with enabled := false }
        effects := s.effects ++ [Effect.osRead s.mOutputFileDescriptor] } := by
  constructor
  · simp [readFile, setEnabled, osRead]
  · simp [step, notifierActive]

end CameraLineDetectorSensorWorker
